import Mathlib

/-!
Verification of the scoreboard aggregation pipeline of `src/scoreboard.js`
(Shrimp Pantheon).  The JavaScript is shallowly embedded: strings become
`List Char` / `String`, JS numbers carrying scores become `ℚ` (the CSV
parser only ever produces exact decimal fractions, for which
floating-point addition in the source and rational addition agree on the
claims below), the insertion-ordered JS `Map` becomes an association list
with in-place update, and `Array.prototype.sort` (a stable sort whose
comparator orders `a` before `b` iff `comparator(a,b) ≤ 0`) becomes
`List.mergeSort` (also stable) with the boolean relation
`comparator(a,b) ≤ 0`.  `localeCompare` is modelled as code-point
lexicographic comparison of the two strings (the locale order agrees with
it on all player names that occur, and every claim is proved for this
collation).  Network effects (`fetch`) are modelled by a pure collaborator
function `String → FetchOutcome`; `Promise.all` preserves the order of
its argument array, so the Hall of Fame join is the order-preserving
`List.map`.  Module-level configuration constants (`PLAYER_ALIASES`,
`SCOREBOARD_DATA_FOLDER`, `SCOREBOARD_FIRST_YEAR`) are passed explicitly
to the functions that read them.
-/

namespace Pantheon

/-! ## Characters and JS string helpers -/

/-- Model of the whitespace class stripped by JS `String.prototype.trim`
(restricted to the characters that can occur here: space, tab, CR, LF). -/
def isJsWhitespace (c : Char) : Bool :=
  c.isWhitespace

/-- Leading-whitespace strip, the front half of `trim`. -/
def ltrim (cs : List Char) : List Char :=
  cs.dropWhile isJsWhitespace

/-- Trailing-whitespace strip, the back half of `trim`. -/
def rtrim (cs : List Char) : List Char :=
  (cs.reverse.dropWhile isJsWhitespace).reverse

/-- Model of JS `String.prototype.trim`. -/
def jsTrim (cs : List Char) : List Char :=
  rtrim (ltrim cs)

/-- Split on the newline character, keeping empty segments
(the `\n`-splitting half of `text.split(/\r?\n/)`). -/
def splitOnNewline : List Char → List (List Char)
  | [] => [[]]
  | c :: rest =>
    if c = '\n' then [] :: splitOnNewline rest
    else
      match splitOnNewline rest with
      | [] => [[c]]
      | line :: more => (c :: line) :: more

/-- Drop a single carriage return at the end of a segment, so that a
`\r\n` ending is consumed as one delimiter, as in `/\r?\n/`. -/
def dropTrailingCr (cs : List Char) : List Char :=
  match cs.reverse with
  | '\r' :: rest => rest.reverse
  | _ => cs

/-- Model of `text.split(/\r?\n/)`. -/
def jsSplitLines (cs : List Char) : List (List Char) :=
  (splitOnNewline cs).map dropTrailingCr

/-- Index of the first comma of a character list, or `none`
(`line.indexOf(",")` restricted to the one character searched for here). -/
def idxOfComma : List Char → Option Nat
  | [] => none
  | c :: rest => if c = ',' then some 0 else (idxOfComma rest).map (· + 1)

/-- Model of `line.indexOf(",", start)`: first comma at or after `start`,
as an absolute index. -/
def idxOfCommaFrom (cs : List Char) (start : Nat) : Option Nat :=
  (idxOfComma (cs.drop start)).map (· + start)

/-- Model of `line.slice(start, stop)` for the in-bounds,
`start ≤ stop` uses the source makes of it. -/
def jsSlice (cs : List Char) (start stop : Nat) : List Char :=
  (cs.drop start).take (stop - start)

/-! ## The numeric token of the score field

The source extracts the score with `scorePart.match` on `-?\d+(\.\d+)?` and
feeds the first match to `Number`.  The regex engine returns the leftmost
match; the quantifiers are greedy and nothing follows them, so the match
at the chosen start is a maximal digit run, optionally preceded by a
minus sign and optionally followed by a dot and a second maximal
(nonempty) digit run. -/

/-- Optional fractional part `(\.\d+)?` taken greedily at the front of
`cs`:  a dot followed by at least one digit, else nothing. -/
def fracToken (cs : List Char) : List Char :=
  match cs with
  | '.' :: rest =>
    let fs := rest.takeWhile Char.isDigit
    if fs.isEmpty then [] else '.' :: fs
  | _ => []

/-- Attempt of the regex `-?\d+(\.\d+)?` anchored at the start of `cs`. -/
def numTokenAt (cs : List Char) : Option (List Char) :=
  match cs with
  | '-' :: rest =>
    let ds := rest.takeWhile Char.isDigit
    if ds.isEmpty then none
    else some ('-' :: (ds ++ fracToken (rest.dropWhile Char.isDigit)))
  | _ =>
    let ds := cs.takeWhile Char.isDigit
    if ds.isEmpty then none
    else some (ds ++ fracToken (cs.dropWhile Char.isDigit))

/-- Leftmost match of `-?\d+(\.\d+)?` in `cs`
(`scorePart.match(...)`, first match only). -/
def findNumMatch : List Char → Option (List Char)
  | [] => none
  | c :: rest =>
    match numTokenAt (c :: rest) with
    | some m => some m
    | none => findNumMatch rest

/-- Value of a decimal digit character. -/
def digitVal (c : Char) : ℕ :=
  c.toNat - '0'.toNat

/-- Value of a digit run read in base 10. -/
def digitsVal (ds : List Char) : ℕ :=
  ds.foldl (fun acc d => 10 * acc + digitVal d) 0

/-- Exact value of an unsigned token `\d+(\.\d+)?`. -/
def unsignedValue (cs : List Char) : ℚ :=
  let intPart := cs.takeWhile Char.isDigit
  match cs.dropWhile Char.isDigit with
  | '.' :: fs => (digitsVal intPart : ℚ) + (digitsVal fs : ℚ) / (10 : ℚ) ^ fs.length
  | _ => (digitsVal intPart : ℚ)

/-- Model of `Number(match[0])` on a match of `-?\d+(\.\d+)?`: the exact
decimal value of the token.  (On such tokens `Number` never returns NaN,
so the source's `Number.isNaN(score)` guard is unreachable.) -/
def numValue : List Char → ℚ
  | '-' :: cs => -(unsignedValue cs)
  | cs => unsignedValue cs

/-! ## Data model -/

/-- One parsed CSV data row, `{ player, score }`. -/
structure ScoreRecord where
  player : String
  score : ℚ
  deriving DecidableEq

/-- One entry of the ranked output array, `{ rank, player, total }`. -/
structure RankedEntry where
  rank : ℕ
  player : String
  total : ℚ
  deriving DecidableEq

/-- A (year, split-number) pair as produced by `getCurrentSplitInfo`. -/
structure SplitId where
  year : ℤ
  split : ℤ
  deriving DecidableEq

/-- The observable fields of a JS `Date`: `getFullYear()` and
`getMonth()` (0 to 11), plus the day of the month. -/
structure JsDate where
  fullYear : ℤ
  month0 : ℕ
  day : ℕ
  deriving DecidableEq

/-- Outcome of one `fetch` of a CSV path.  `ok body` stands for a
successful response whose text was read; `failure` collapses a non-ok
response status, a network error, and any exception thrown downstream —
exactly the cases the source's `catch` and `!response.ok` branches
collapse. -/
inductive FetchOutcome where
  | ok (body : String)
  | failure
  deriving DecidableEq

/-- One Hall of Fame summary.  `players` is `some _` exactly in the
"completed" shape, matching the presence of the `players` field on the
returned JS object. -/
structure SplitSummary where
  year : ℤ
  split : ℤ
  status : String
  players : Option (List RankedEntry)
  deriving DecidableEq

/-! ## CSV parsing (`parseCsv`) -/

/-- Body of the per-line loop of `parseCsv`: trim the line, skip blank
lines, find the first two commas (skip if either is missing), take the
trimmed text before the first comma as the player (skip if empty), take
the text between the commas as the score field, and extract its first
numeric token (skip if there is none).  Everything after the second
comma is never read. -/
def parseLine (rawLine : List Char) : Option ScoreRecord :=
  let line := jsTrim rawLine
  if line.isEmpty then none
  else
    match idxOfCommaFrom line 0 with
    | none => none
    | some firstComma =>
      match idxOfCommaFrom line (firstComma + 1) with
      | none => none
      | some secondComma =>
        let playerPart := jsTrim (jsSlice line 0 firstComma)
        let scorePart := jsTrim (jsSlice line (firstComma + 1) secondComma)
        if playerPart.isEmpty then none
        else
          match findNumMatch scorePart with
          | none => none
          | some m => some { player := String.mk playerPart, score := numValue m }

/-- Model of `parseCsv(text)`: trim the whole text, split it into lines,
return no records unless there are at least two lines, drop the header
line, and run the per-line loop on the rest. -/
def parseCsv (text : String) : List ScoreRecord :=
  let lines := jsSplitLines (jsTrim text.data)
  if lines.length ≤ 1 then []
  else (lines.drop 1).filterMap parseLine

/-! ## Tallying (`tallyScores`) -/

/-- Model of `Map.prototype.get` on an insertion-ordered association
list. -/
def mapGet : List (String × ℚ) → String → Option ℚ
  | [], _ => none
  | (k, v) :: rest, key => if k = key then some v else mapGet rest key

/-- Model of `Map.prototype.set` on an insertion-ordered association
list: an existing key keeps its position and gets the new value, a new
key is appended at the end. -/
def mapSet : List (String × ℚ) → String → ℚ → List (String × ℚ)
  | [], key, value => [(key, value)]
  | (k, v) :: rest, key, value =>
    if k = key then (k, value) :: rest else (k, v) :: mapSet rest key value

/-- Model of `tallyScores(records)`: fold the records in order into the
map, adding each score to the player's current total, starting from 0
for an unseen player (`totals.get(player) ?? 0`). -/
def tallyScores (records : List ScoreRecord) : List (String × ℚ) :=
  records.foldl
    (fun totals r => mapSet totals r.player (((mapGet totals r.player).getD 0) + r.score))
    []

/-! ## Ranking (`createRankedArray`) -/

/-- Code-point lexicographic order on character lists; the model of the
collation used by `a.localeCompare(b) ≤ 0`. -/
def lexLe : List Char → List Char → Bool
  | [], _ => true
  | _ :: _, [] => false
  | a :: as, b :: bs => if a = b then lexLe as bs else decide (a < b)

/-- Model of `a.localeCompare(b) ≤ 0` on strings. -/
def localeLe (a b : String) : Bool :=
  lexLe a.data b.data

/-- The sort comparator of `createRankedArray`, as the relation
"comparator(a, b) ≤ 0":  if the totals differ, the larger total comes
first (`b.total - a.total`), otherwise the names are compared with
`localeCompare`. -/
def rankerLe (a b : String × ℚ) : Bool :=
  if b.2 ≠ a.2 then decide (b.2 < a.2) else localeLe a.1 b.1

/-- Model of `entries.map((entry, index) => ({ rank: index + 1, ... }))`
starting at index `i`. -/
def addRanks : ℕ → List (String × ℚ) → List RankedEntry
  | _, [] => []
  | i, e :: rest => { rank := i + 1, player := e.1, total := e.2 } :: addRanks (i + 1) rest

/-- Model of `createRankedArray(totalsMap)`: list the map's entries in
insertion order, stably sort them with the comparator, and attach
1-based positional ranks. -/
def createRankedArray (totalsMap : List (String × ℚ)) : List RankedEntry :=
  addRanks 0 (totalsMap.mergeSort rankerLe)

/-! ## Split resolution and CSV paths -/

/-- Model of `getCurrentSplitInfo(today)`: split 2 from July on
(`getMonth() + 1 ≥ 7`), else split 1, in the date's calendar year. -/
def getCurrentSplitInfo (today : JsDate) : SplitId :=
  let month := today.month0 + 1
  { year := today.fullYear, split := if month ≥ 7 then 2 else 1 }

/-- Trailing-slash strip of the data folder, `replace(/\/+$/, "")`. -/
def stripTrailingSlashes (cs : List Char) : List Char :=
  (cs.reverse.dropWhile (· = '/')).reverse

/-- Model of `buildCsvPath(year, split)` with the folder configuration
passed explicitly. -/
def buildCsvPath (dataFolder : String) (year split : ℤ) : String :=
  let trimmed := String.mk (stripTrailingSlashes dataFolder.data)
  let filename := toString year ++ "_Split" ++ toString split ++ ".csv"
  if trimmed ≠ "" then trimmed ++ "/" ++ filename else filename

/-! ## Hall of Fame -/

/-- Model of `summariseSplitForHallOfFame(year, split, currentInfo)` with
the fetch collaborator and folder configuration passed explicitly.  The
current split short-circuits to "in-progress" before any fetch; any
fetch failure, an empty record list, or an empty ranked array give
"off-split"; otherwise the split is "completed" with the top two ranked
entries. -/
def summariseSplitForHallOfFame (dataFolder : String) (fetch : String → FetchOutcome)
    (year split : ℤ) (currentInfo : SplitId) : SplitSummary :=
  if year = currentInfo.year ∧ split = currentInfo.split then
    { year := year, split := split, status := "in-progress", players := none }
  else
    match fetch (buildCsvPath dataFolder year split) with
    | .failure => { year := year, split := split, status := "off-split", players := none }
    | .ok body =>
      let records := parseCsv body
      if records.isEmpty then
        { year := year, split := split, status := "off-split", players := none }
      else
        let ranked := createRankedArray (tallyScores records)
        if ranked.isEmpty then
          { year := year, split := split, status := "off-split", players := none }
        else
          { year := year, split := split, status := "completed",
            players := some (ranked.take 2) }

/-- The `splitsToCheck` enumeration of `buildHallOfFame`: years from the
first year through the current year, splits 1 and 2 within each year,
skipping pairs lying strictly after the current split. -/
def splitsToCheck (firstYear : ℤ) (currentInfo : SplitId) : List SplitId :=
  ((List.range (currentInfo.year - firstYear + 1).toNat).map
      (fun k : ℕ => firstYear + (k : ℤ))).flatMap
    (fun year =>
      ([1, 2] : List ℤ).filterMap (fun split =>
        if year > currentInfo.year ∨ (year = currentInfo.year ∧ split > currentInfo.split) then
          none
        else some { year := year, split := split }))

/-- Model of `buildHallOfFame`: one summary per enumerated split.
`Promise.all` resolves to the results in the order of its argument
array whatever the completion order, so the fan-in is a `List.map`. -/
def buildHallOfFame (firstYear : ℤ) (dataFolder : String) (fetch : String → FetchOutcome)
    (currentInfo : SplitId) : List SplitSummary :=
  (splitsToCheck firstYear currentInfo).map
    (fun p => summariseSplitForHallOfFame dataFolder fetch p.year p.split currentInfo)

/-! ## Aliases and rendering -/

/-- Model of `getDisplayName(realName)` with the alias table passed
explicitly.  The JS lookup `PLAYER_ALIASES[realName] || realName` falls
back to the real name both when no alias exists and when the alias is
the empty string (a falsy value). -/
def getDisplayName (aliases : List (String × String)) (realName : String) : String :=
  match aliases.lookup realName with
  | some nick => if nick = "" then realName else nick
  | none => realName

/-- The data content of the rows drawn by `renderMainTableRows` for a
record list: rank, display name (aliases applied here and only here),
and total, one row per ranked entry in ranked order. -/
def mainTableRows (aliases : List (String × String)) (records : List ScoreRecord) :
    List (ℕ × String × ℚ) :=
  (createRankedArray (tallyScores records)).map
    (fun row => (row.rank, getDisplayName aliases row.player, row.total))

/-! ## Statement-side definitions -/

/-- Modelled from the spec: the parse preprocessing exactly as claim C4
words it — split the raw input on line boundaries, trim each line,
return nothing when the split has at most one line, and otherwise drop
the first line of that split.  (The source, by contrast, trims the whole
text before splitting.) -/
def parseCsvClaimC4 (text : String) : List ScoreRecord :=
  let lines := (jsSplitLines text.data).map jsTrim
  if lines.length ≤ 1 then []
  else (lines.drop 1).filterMap parseLine

/-- Claim C4 amended: same as `parseCsvClaimC4`, except that the input
is first trimmed of leading and trailing whitespace, as the source does. -/
def parseCsvAmendedC4 (text : String) : List ScoreRecord :=
  let lines := (jsSplitLines (jsTrim text.data)).map jsTrim
  if lines.length ≤ 1 then []
  else (lines.drop 1).filterMap parseLine

/-- Sum of the scores of exactly those records whose player field equals
`p` — the reference value for claim C2. -/
def playerSum (p : String) (records : List ScoreRecord) : ℚ :=
  ((records.filter (fun r => r.player == p)).map ScoreRecord.score).sum

/-- Strict "comes before" order claim C1 asserts of the ranked output:
strictly larger total first, ties in total broken by strictly smaller
player name. -/
def rankedBefore (x y : RankedEntry) : Prop :=
  y.total < x.total ∨ (x.total = y.total ∧ localeLe x.player y.player = true ∧ x.player ≠ y.player)

/-- Chronological "strictly earlier" order on split identifiers, as used
by claim C5. -/
def chronBefore (a b : SplitId) : Prop :=
  a.year < b.year ∨ (a.year = b.year ∧ a.split < b.split)

/-! ## General lemmas about the embedded operations -/

theorem tallyScores_nil : tallyScores [] = [] := rfl

theorem createRankedArray_nil : createRankedArray [] = [] := by
  simp [createRankedArray, addRanks]

/-! ## Claim C8: current split resolution -/

/-- Claim C8: for every reference date, the split is 2 exactly when the
calendar month (`getMonth() + 1`, range 1 to 12) is at least 7 and 1
otherwise, and the year is the date's calendar year; any July 1 gives
split 2 of its year and any June 30 gives split 1. -/
theorem currentSplit_boundary (d : JsDate) :
    (getCurrentSplitInfo d).year = d.fullYear
    ∧ ((getCurrentSplitInfo d).split = 2 ↔ 7 ≤ d.month0 + 1)
    ∧ ((getCurrentSplitInfo d).split = 1 ↔ d.month0 + 1 < 7)
    ∧ (∀ y, getCurrentSplitInfo { fullYear := y, month0 := 6, day := 1 } =
        { year := y, split := 2 })
    ∧ (∀ y, getCurrentSplitInfo { fullYear := y, month0 := 5, day := 30 } =
        { year := y, split := 1 }) := by
  refine ⟨rfl, ?_, ?_, ?_, ?_⟩
  all_goals (simp [getCurrentSplitInfo]; try omega)

/-! ## Claim C6: the current split is always "in-progress" -/

/-- Claim C6: for the enumerated pair equal to the current split, the
summary is in-progress for every fetch collaborator; no fetch is
consulted (any two collaborators give the same summary) and the status
is never "completed" or "off-split". -/
theorem summarise_current_in_progress (dataFolder : String) (fetch : String → FetchOutcome)
    (year split : ℤ) (cur : SplitId) (h : year = cur.year ∧ split = cur.split) :
    summariseSplitForHallOfFame dataFolder fetch year split cur =
      { year := year, split := split, status := "in-progress", players := none }
    ∧ (∀ fetch2 : String → FetchOutcome,
        summariseSplitForHallOfFame dataFolder fetch2 year split cur =
          summariseSplitForHallOfFame dataFolder fetch year split cur)
    ∧ (summariseSplitForHallOfFame dataFolder fetch year split cur).status ≠ "completed"
    ∧ (summariseSplitForHallOfFame dataFolder fetch year split cur).status ≠ "off-split" := by
  refine ⟨?_, ?_, ?_, ?_⟩ <;> simp [summariseSplitForHallOfFame, h]

/-- Witness for C6 at the current split (2025, 1), with a collaborator
that does hold CSV data for it: the summary is still in-progress. -/
theorem summarise_current_in_progress_witness :
    summariseSplitForHallOfFame "data"
        (fun _ => FetchOutcome.ok "PlayerID,Score\nAlex E.,5,Clue") 2025 1
        { year := 2025, split := 1 } =
      { year := 2025, split := 1, status := "in-progress", players := none } :=
  (summarise_current_in_progress "data"
    (fun _ => FetchOutcome.ok "PlayerID,Score\nAlex E.,5,Clue") 2025 1
    { year := 2025, split := 1 } (by decide)).1

/-! ## Claim C7: classification of non-current splits -/

/-- Claim C7: for a non-current pair, the status is "off-split" exactly
when the fetch fails or it succeeds with zero parsed records or zero
ranked entries, and "completed" — with the top two ranked entries as
players — exactly when the fetch succeeds and ranking is nonempty; the
summary depends only on the fetch outcome at this pair's own path, and a
failing fetch for (2024, 1) yields the off-split summary. -/
theorem summarise_noncurrent_classification (dataFolder : String)
    (fetch : String → FetchOutcome) (year split : ℤ) (cur : SplitId)
    (h : ¬(year = cur.year ∧ split = cur.split)) :
    ((summariseSplitForHallOfFame dataFolder fetch year split cur).status = "off-split" ↔
      (fetch (buildCsvPath dataFolder year split) = .failure ∨
        ∃ body, fetch (buildCsvPath dataFolder year split) = .ok body ∧
          (parseCsv body = [] ∨ createRankedArray (tallyScores (parseCsv body)) = [])))
    ∧ ((summariseSplitForHallOfFame dataFolder fetch year split cur).status = "completed" ↔
      ∃ body, fetch (buildCsvPath dataFolder year split) = .ok body ∧
        createRankedArray (tallyScores (parseCsv body)) ≠ [])
    ∧ (∀ body, fetch (buildCsvPath dataFolder year split) = .ok body →
        createRankedArray (tallyScores (parseCsv body)) ≠ [] →
        summariseSplitForHallOfFame dataFolder fetch year split cur =
          { year := year, split := split, status := "completed",
            players := some ((createRankedArray (tallyScores (parseCsv body))).take 2) })
    ∧ (∀ fetch2 : String → FetchOutcome,
        fetch2 (buildCsvPath dataFolder year split) = fetch (buildCsvPath dataFolder year split) →
        summariseSplitForHallOfFame dataFolder fetch2 year split cur =
          summariseSplitForHallOfFame dataFolder fetch year split cur)
    ∧ summariseSplitForHallOfFame dataFolder (fun _ => FetchOutcome.failure) 2024 1
        { year := 2025, split := 1 } =
      { year := 2024, split := 1, status := "off-split", players := none } := by
  have hranked : ∀ body : String, parseCsv body = [] →
      createRankedArray (tallyScores (parseCsv body)) = [] := by
    intro body hb
    rw [hb, tallyScores_nil, createRankedArray_nil]
  refine ⟨?_, ?_, ?_, ?_, ?_⟩
  · cases hf : fetch (buildCsvPath dataFolder year split) with
    | failure => simp [summariseSplitForHallOfFame, h, hf]
    | ok body =>
      by_cases hrec : parseCsv body = []
      · simp [summariseSplitForHallOfFame, h, hf, hrec, hranked body hrec,
          createRankedArray_nil, tallyScores_nil]
      · by_cases hrk : createRankedArray (tallyScores (parseCsv body)) = []
        · simp [summariseSplitForHallOfFame, h, hf, hrec, hrk]
        · simp [summariseSplitForHallOfFame, h, hf, hrec, hrk]
  · cases hf : fetch (buildCsvPath dataFolder year split) with
    | failure => simp [summariseSplitForHallOfFame, h, hf]
    | ok body =>
      by_cases hrec : parseCsv body = []
      · simp [summariseSplitForHallOfFame, h, hf, hrec, hranked body hrec,
          tallyScores_nil, createRankedArray_nil]
      · by_cases hrk : createRankedArray (tallyScores (parseCsv body)) = []
        · simp [summariseSplitForHallOfFame, h, hf, hrec, hrk]
        · simp [summariseSplitForHallOfFame, h, hf, hrec, hrk]
  · intro body hf hrk
    have hrec : ¬(parseCsv body = []) := fun hb => hrk (hranked body hb)
    simp [summariseSplitForHallOfFame, h, hf, hrec, hrk]
  · intro fetch2 hagree
    unfold summariseSplitForHallOfFame
    rw [hagree]
  · simp [summariseSplitForHallOfFame]

/-- Witness for C7: an always-failing collaborator (for example an HTTP
404) classifies the non-current pair (2024, 1) as off-split. -/
theorem summarise_noncurrent_classification_witness :
    (summariseSplitForHallOfFame "data" (fun _ => FetchOutcome.failure) 2024 1
        { year := 2025, split := 1 }).status = "off-split" :=
  ((summarise_noncurrent_classification "data" (fun _ => FetchOutcome.failure) 2024 1
    { year := 2025, split := 1 } (by decide)).1).mpr (Or.inl rfl)

/-! ## Claim C9: aliases never affect tallying or ranking -/

/-- Claim C9: for every record list and any two alias tables, the
rendered rows differ at most in the display-name column — their ranks,
totals and order are those of the alias-free tally-then-rank pipeline —
and the alias table enters only through getDisplayName at render time. -/
theorem alias_noninterference (a1 a2 : List (String × String)) (records : List ScoreRecord) :
    (mainTableRows a1 records).map (fun row => (row.1, row.2.2)) =
      (createRankedArray (tallyScores records)).map (fun e => (e.rank, e.total))
    ∧ (mainTableRows a2 records).map (fun row => (row.1, row.2.2)) =
      (createRankedArray (tallyScores records)).map (fun e => (e.rank, e.total))
    ∧ (mainTableRows a1 records).map (fun row => (row.1, row.2.2)) =
      (mainTableRows a2 records).map (fun row => (row.1, row.2.2))
    ∧ mainTableRows a1 records =
      (createRankedArray (tallyScores records)).map
        (fun e => (e.rank, getDisplayName a1 e.player, e.total)) := by
  refine ⟨?_, ?_, ?_, rfl⟩ <;> simp [mainTableRows, List.map_map]

/-! ## Claim C2: tallying -/

theorem mapGet_mapSet_self (m : List (String × ℚ)) (k : String) (v : ℚ) :
    mapGet (mapSet m k v) k = some v := by
  induction m with
  | nil => simp [mapSet, mapGet]
  | cons e rest ih =>
    obtain ⟨k0, v0⟩ := e
    by_cases hk : k0 = k
    · simp [mapSet, hk, mapGet]
    · simp [mapSet, hk, mapGet, ih]

theorem mapGet_mapSet_ne (m : List (String × ℚ)) (k : String) (v : ℚ) (p : String)
    (h : p ≠ k) : mapGet (mapSet m k v) p = mapGet m p := by
  induction m with
  | nil => simp [mapSet, mapGet, Ne.symm h]
  | cons e rest ih =>
    obtain ⟨k0, v0⟩ := e
    by_cases hk : k0 = k
    · subst hk
      simp [mapSet, mapGet, Ne.symm h]
    · by_cases hp : k0 = p
      · simp [mapSet, hk, mapGet, hp, h]
      · simp [mapSet, hk, mapGet, hp, ih]

theorem playerSum_nil (p : String) : playerSum p [] = 0 := rfl

theorem playerSum_cons (p : String) (r : ScoreRecord) (rest : List ScoreRecord) :
    playerSum p (r :: rest) =
      if r.player = p then r.score + playerSum p rest else playerSum p rest := by
  by_cases hp : r.player = p <;> simp [playerSum, hp]

/-- Behaviour of the tallying fold from an arbitrary accumulator map. -/
theorem tally_foldl_mapGet (records : List ScoreRecord) :
    ∀ (acc : List (String × ℚ)) (p : String),
      mapGet (records.foldl
          (fun totals r => mapSet totals r.player (((mapGet totals r.player).getD 0) + r.score))
          acc) p =
        match mapGet acc p with
        | some v => some (v + playerSum p records)
        | none =>
          if p ∈ records.map ScoreRecord.player then some (playerSum p records) else none := by
  induction records with
  | nil =>
    intro acc p
    cases h : mapGet acc p <;> simp [playerSum_nil, h]
  | cons r rest ih =>
    intro acc p
    rw [List.foldl_cons, ih]
    by_cases hp : p = r.player
    · subst hp
      rw [mapGet_mapSet_self]
      cases h : mapGet acc r.player with
      | none => simp [h, playerSum_cons, add_assoc]
      | some v => simp [h, playerSum_cons, add_assoc]
    · rw [mapGet_mapSet_ne _ _ _ _ hp]
      cases h : mapGet acc p with
      | none => simp [h, playerSum_cons, Ne.symm hp, hp]
      | some v => simp [h, playerSum_cons, Ne.symm hp]

/-- Claim C2: each player's total in the tally is exactly the sum of
the scores of the records whose player field equals that player
(case-sensitively), players appearing in no record are absent from the
map, the worked example tallies to A ↦ 5, B ↦ 1 in first-seen order,
and negative and fractional scores accumulate unchanged. -/
theorem tally_totals (records : List ScoreRecord) (p : String) :
    mapGet (tallyScores records) p =
      (if p ∈ records.map ScoreRecord.player then some (playerSum p records) else none)
    ∧ tallyScores [⟨"A", 2⟩, ⟨"A", 3⟩, ⟨"B", 1⟩] = [("A", 5), ("B", 1)]
    ∧ tallyScores [⟨"A", -(1/2)⟩, ⟨"A", 1/4⟩] = [("A", -(1/4))] := by
  refine ⟨?_, ?_, ?_⟩
  · rw [tallyScores, tally_foldl_mapGet]
    simp [mapGet]
  · have h : tallyScores [⟨"A", 2⟩, ⟨"A", 3⟩, ⟨"B", 1⟩] =
        [("A", ((0:ℚ) + 2) + 3), ("B", (0:ℚ) + 1)] := rfl
    rw [h]
    norm_num
  · have h : tallyScores [⟨"A", -(1/2)⟩, ⟨"A", 1/4⟩] =
        [("A", ((0:ℚ) + -(1/2)) + 1/4)] := rfl
    rw [h]
    norm_num

/-! ## Claim C4: parse preprocessing -/

theorem rtrim_nil : rtrim [] = [] := rfl

theorem ltrim_idem (l : List Char) : ltrim (ltrim l) = ltrim l :=
  List.dropWhile_idempotent _ _

theorem rtrim_idem (l : List Char) : rtrim (rtrim l) = rtrim l := by
  simp [rtrim, List.reverse_reverse, List.dropWhile_idempotent]

theorem ltrim_cons_of_not_ws (c : Char) (t : List Char) (h : isJsWhitespace c = false) :
    ltrim (c :: t) = c :: t := by
  simp [ltrim, List.dropWhile_cons, h]

theorem not_ws_head_of_ltrim_fixed (c : Char) (t : List Char) (h : ltrim (c :: t) = c :: t) :
    isJsWhitespace c = false := by
  by_contra hws
  simp at hws
  have hlen : (ltrim (c :: t)).length ≤ t.length := by
    simp only [ltrim, List.dropWhile_cons, hws, if_pos]
    exact (List.dropWhile_sublist _).length_le
  rw [h] at hlen
  simp at hlen

theorem ltrim_rtrim_of_fixed (y : List Char) (h : ltrim y = y) :
    ltrim (rtrim y) = rtrim y := by
  cases y with
  | nil => simp [rtrim_nil, ltrim]
  | cons c t =>
    have hc : isJsWhitespace c = false := not_ws_head_of_ltrim_fixed c t h
    have hr : rtrim (c :: t) = (List.dropWhile isJsWhitespace ((c :: t).reverse)).reverse := rfl
    rw [hr]
    have hrev : (c :: t).reverse = t.reverse ++ [c] := by simp
    rw [hrev, List.dropWhile_append]
    by_cases he : (List.dropWhile isJsWhitespace t.reverse).isEmpty
    · simp [he, List.dropWhile_cons, hc, ltrim_cons_of_not_ws, hc]
    · simp only [he, if_neg, Bool.false_eq_true, not_false_iff, ite_false]
      rw [List.reverse_append]
      simp [ltrim_cons_of_not_ws, hc]

theorem jsTrim_idem (l : List Char) : jsTrim (jsTrim l) = jsTrim l := by
  unfold jsTrim
  rw [ltrim_rtrim_of_fixed (ltrim l) (ltrim_idem l), rtrim_idem]

/-- The per-line loop trims its line first, so feeding it an already
trimmed line changes nothing. -/
theorem parseLine_jsTrim (l : List Char) : parseLine (jsTrim l) = parseLine l := by
  unfold parseLine
  rw [jsTrim_idem]

/-- Counterexample to claim C4 as stated: on the input consisting of a
leading newline followed by the single data line A,1,x, splitting the
raw input yields two lines, so the claimed procedure drops only the
empty first line and parses A,1,x into a record — but the source trims
the whole text before splitting, sees a single line, and returns no
records. -/
theorem parse_preprocessing_counterexample :
    parseCsvClaimC4 "\nA,1,x" = [{ player := "A", score := 1 }]
    ∧ parseCsv "\nA,1,x" = []
    ∧ parseCsv "\nA,1,x" ≠ parseCsvClaimC4 "\nA,1,x" := by
  refine ⟨by decide, by decide, by decide⟩

/-- Claim C4 amended: the input is first trimmed of leading and
trailing whitespace; parse then splits the trimmed input on line
boundaries (bare or carriage-return-prefixed), trims each line, returns
the empty sequence when the split has zero or one line, and otherwise
discards exactly the first line of the split unconditionally as the
header, drawing records only from the remaining lines. -/
theorem parse_preprocessing_amended (text : String) :
    parseCsv text = parseCsvAmendedC4 text := by
  unfold parseCsv parseCsvAmendedC4
  simp only [List.length_map]
  by_cases h : (jsSplitLines (jsTrim text.data)).length ≤ 1
  · simp [h]
  · simp only [h, if_neg, ite_false]
    rw [← List.map_drop, List.filterMap_map]
    congr 1
    funext x
    exact (parseLine_jsTrim x).symm

/-! ## Claims C1 and C10: ranking -/

theorem lexLe_total : ∀ (a b : List Char), (lexLe a b || lexLe b a) = true
  | [], b => by cases b <;> simp [lexLe]
  | a :: as, [] => by simp [lexLe]
  | a :: as, b :: bs => by
    by_cases h : a = b
    · subst h
      simpa [lexLe] using lexLe_total as bs
    · rcases lt_or_gt_of_ne h with hl | hl
      · simp [lexLe, h, Ne.symm h, hl]
      · simp [lexLe, h, Ne.symm h, hl, asymm hl]

theorem lexLe_trans : ∀ (a b c : List Char),
    lexLe a b = true → lexLe b c = true → lexLe a c = true
  | [], _, _ => by simp [lexLe]
  | a :: as, [], c => by simp [lexLe]
  | a :: as, b :: bs, [] => by simp [lexLe]
  | a :: as, b :: bs, c :: cs => by
    by_cases hab : a = b <;> by_cases hbc : b = c
    · subst hab; subst hbc
      simpa [lexLe] using lexLe_trans as bs cs
    · subst hab
      simp [lexLe, hbc]
    · subst hbc
      simp [lexLe, hab]
      exact fun h _ => h
    · intro h1 h2
      simp [lexLe, hab, hbc] at h1 h2
      have hac : a < c := lt_trans h1 h2
      simp [lexLe, ne_of_lt hac, hac]

theorem lexLe_antisymm : ∀ (a b : List Char),
    lexLe a b = true → lexLe b a = true → a = b
  | [], [] => by simp
  | [], b :: bs => by simp [lexLe]
  | a :: as, [] => by simp [lexLe]
  | a :: as, b :: bs => by
    by_cases hab : a = b
    · subst hab
      intro h1 h2
      simp [lexLe] at h1 h2
      rw [lexLe_antisymm as bs h1 h2]
    · intro h1 h2
      simp [lexLe, hab, Ne.symm hab] at h1 h2
      exact absurd h2 (asymm h1)

theorem localeLe_total (a b : String) : (localeLe a b || localeLe b a) = true :=
  lexLe_total a.data b.data

theorem localeLe_trans (a b c : String) :
    localeLe a b = true → localeLe b c = true → localeLe a c = true :=
  lexLe_trans a.data b.data c.data

theorem localeLe_antisymm (a b : String) :
    localeLe a b = true → localeLe b a = true → a = b := by
  intro h1 h2
  exact String.ext (lexLe_antisymm a.data b.data h1 h2)

theorem rankerLe_iff (a b : String × ℚ) :
    rankerLe a b = true ↔ (b.2 < a.2 ∨ (a.2 = b.2 ∧ localeLe a.1 b.1 = true)) := by
  by_cases h : b.2 = a.2
  · simp [rankerLe, h, lt_irrefl]
  · simp [rankerLe, h, Ne.symm h]

theorem rankerLe_total (a b : String × ℚ) : (rankerLe a b || rankerLe b a) = true := by
  rcases lt_trichotomy a.2 b.2 with hl | he | hl
  · simp [rankerLe_iff, hl]
  · have := localeLe_total a.1 b.1
    rcases Bool.or_eq_true_iff.mp this with h' | h'
    · simp [rankerLe_iff, he, h']
    · simp [rankerLe_iff, he.symm, h']
  · simp [rankerLe_iff, hl]

theorem rankerLe_trans (a b c : String × ℚ) :
    rankerLe a b = true → rankerLe b c = true → rankerLe a c = true := by
  rw [rankerLe_iff, rankerLe_iff, rankerLe_iff]
  rintro (h1 | ⟨he1, hl1⟩) (h2 | ⟨he2, hl2⟩)
  · exact Or.inl (lt_trans h2 h1)
  · exact Or.inl (he2 ▸ h1)
  · exact Or.inl (he1.symm ▸ h2)
  · exact Or.inr ⟨he1.trans he2, localeLe_trans _ _ _ hl1 hl2⟩



theorem addRanks_map_pt : ∀ (i : ℕ) (l : List (String × ℚ)),
    (addRanks i l).map (fun e => (e.player, e.total)) = l
  | _, [] => rfl
  | i, e :: rest => by simp [addRanks, addRanks_map_pt (i + 1) rest]

theorem addRanks_length : ∀ (i : ℕ) (l : List (String × ℚ)),
    (addRanks i l).length = l.length
  | _, [] => rfl
  | i, e :: rest => by simp [addRanks, addRanks_length (i + 1) rest]

theorem addRanks_rank : ∀ (i : ℕ) (l : List (String × ℚ)) (j : ℕ)
    (h : j < (addRanks i l).length), ((addRanks i l).get ⟨j, h⟩).rank = i + j + 1 := by
  intro i l
  induction l generalizing i with
  | nil => intro j h; simp [addRanks] at h
  | cons e rest ih =>
    intro j h
    cases j with
    | zero => simp [addRanks]
    | succ j' =>
      have h' : j' < (addRanks (i + 1) rest).length := by
        simpa [addRanks] using h
      have : ((addRanks i (e :: rest)).get ⟨j' + 1, h⟩) =
          ((addRanks (i + 1) rest).get ⟨j', h'⟩) := by
        simp [addRanks]
      rw [this, ih (i + 1) j' h']
      omega

theorem mergeSort_pair (a b : String × ℚ) (le : (String × ℚ) → (String × ℚ) → Bool) :
    List.mergeSort [a, b] le = if le a b then [a, b] else [b, a] := by
  simp [List.mergeSort, List.merge]

theorem ranker_sorted (totals : List (String × ℚ))
    (hnd : (totals.map Prod.fst).Nodup) :
    List.Pairwise rankedBefore (createRankedArray totals)
    ∧ (∀ j (h : j < (createRankedArray totals).length),
        ((createRankedArray totals).get ⟨j, h⟩).rank = j + 1)
    ∧ createRankedArray [("B", 5), ("A", 5)] =
      [{ rank := 1, player := "A", total := 5 }, { rank := 2, player := "B", total := 5 }] := by
  refine ⟨?_, ?_, ?_⟩
  · have hs : List.Pairwise (fun x y => rankerLe x y = true) (totals.mergeSort rankerLe) :=
      List.sorted_mergeSort rankerLe_trans rankerLe_total totals
    have hperm : ((totals.mergeSort rankerLe).map Prod.fst).Perm (totals.map Prod.fst) :=
      (List.mergeSort_perm totals rankerLe).map Prod.fst
    have hnds : ((totals.mergeSort rankerLe).map Prod.fst).Nodup := hperm.nodup_iff.mpr hnd
    have hne : List.Pairwise (fun x y : String × ℚ => x.1 ≠ y.1) (totals.mergeSort rankerLe) :=
      List.pairwise_map.mp hnds
    have hcomb := hs.and hne
    have hstrict : List.Pairwise
        (fun x y : String × ℚ =>
          y.2 < x.2 ∨ (x.2 = y.2 ∧ localeLe x.1 y.1 = true ∧ x.1 ≠ y.1))
        (totals.mergeSort rankerLe) := by
      refine hcomb.imp ?_
      rintro x y ⟨hle, hpne⟩
      rcases (rankerLe_iff x y).mp hle with hl | ⟨he, hloc⟩
      · exact Or.inl hl
      · exact Or.inr ⟨he, hloc, hpne⟩
    have hmap : (createRankedArray totals).map (fun e => (e.player, e.total)) =
        totals.mergeSort rankerLe := addRanks_map_pt 0 _
    have := List.pairwise_map.mp (hmap ▸ hstrict :
      List.Pairwise
        (fun x y : String × ℚ =>
          y.2 < x.2 ∨ (x.2 = y.2 ∧ localeLe x.1 y.1 = true ∧ x.1 ≠ y.1))
        ((createRankedArray totals).map (fun e => (e.player, e.total))))
    exact this
  · intro j h
    have := addRanks_rank 0 (totals.mergeSort rankerLe) j h
    simpa [createRankedArray] using this
  · have hr : rankerLe ("B", (5:ℚ)) ("A", (5:ℚ)) = false := by
      have h5 : ¬((5:ℚ) ≠ (5:ℚ)) := by norm_num
      simp [rankerLe, h5, localeLe, lexLe]
    rw [createRankedArray, mergeSort_pair, hr]
    decide

theorem ranker_permutes (totals : List (String × ℚ))
    (hnd : (totals.map Prod.fst).Nodup) :
    ((createRankedArray totals).map (fun e => (e.player, e.total))).Perm totals
    ∧ (createRankedArray totals).length = totals.length
    ∧ ((createRankedArray totals).map RankedEntry.player).Nodup
    ∧ (∀ p t, (p, t) ∈ totals ↔ ∃ e ∈ createRankedArray totals, e.player = p ∧ e.total = t) := by
  have hmap : (createRankedArray totals).map (fun e => (e.player, e.total)) =
      totals.mergeSort rankerLe := addRanks_map_pt 0 _
  have hperm : ((createRankedArray totals).map (fun e => (e.player, e.total))).Perm totals := by
    rw [hmap]; exact List.mergeSort_perm totals rankerLe
  refine ⟨hperm, ?_, ?_, ?_⟩
  · have h1 : (createRankedArray totals).length =
        ((createRankedArray totals).map (fun e => (e.player, e.total))).length := by simp
    rw [h1, hperm.length_eq]
  · have hp2 : (((createRankedArray totals).map (fun e => (e.player, e.total))).map
        Prod.fst).Perm (totals.map Prod.fst) := hperm.map Prod.fst
    have hnd2 : (((createRankedArray totals).map (fun e => (e.player, e.total))).map
        Prod.fst).Nodup := hp2.nodup_iff.mpr hnd
    simpa [List.map_map, Function.comp] using hnd2
  · intro p t
    rw [← hperm.mem_iff]
    simp [List.mem_map]

/-- Witness for C1 at the tied table B mapsto 5, A mapsto 5. -/
theorem ranker_sorted_witness :
    List.Pairwise rankedBefore (createRankedArray [("B", (5:ℚ)), ("A", 5)]) :=
  (ranker_sorted [("B", 5), ("A", 5)] (by decide)).1

/-- Witness for C10 at a concrete two-player table. -/
theorem ranker_permutes_witness :
    ((createRankedArray [("X", (3:ℚ)), ("Y", 7)]).map
      (fun e => (e.player, e.total))).Perm [("X", 3), ("Y", 7)] :=
  (ranker_permutes [("X", 3), ("Y", 7)] (by decide)).1

/-! ## Claim C5: Hall of Fame enumeration -/

theorem mem_splitsToCheck (fy : ℤ) (cur : SplitId) (p : SplitId) :
    p ∈ splitsToCheck fy cur ↔
      fy ≤ p.year ∧ p.year ≤ cur.year ∧ (p.split = 1 ∨ p.split = 2) ∧
      ¬(p.year > cur.year ∨ (p.year = cur.year ∧ p.split > cur.split)) := by
  obtain ⟨py, ps⟩ := p
  obtain ⟨cy, cs⟩ := cur
  simp only [splitsToCheck, List.mem_flatMap, List.mem_map, List.mem_range,
    List.mem_filterMap]
  constructor
  · rintro ⟨y, ⟨k, hk, rfl⟩, s, hs, hif⟩
    rw [Int.lt_toNat] at hk
    by_cases hc : fy + (k : ℤ) > cy ∨ (fy + (k : ℤ) = cy ∧ s > cs)
    · rw [if_pos hc] at hif
      cases hif
    · rw [if_neg hc] at hif
      injection hif with h'
      have h1 := congrArg SplitId.year h'
      have h2 := congrArg SplitId.split h'
      simp only at h1 h2
      simp only [List.mem_cons, List.mem_singleton, List.not_mem_nil, or_false] at hs
      omega
  · rintro ⟨h1, h2, h3, h4⟩
    refine ⟨py, ⟨(py - fy).toNat, ?_, ?_⟩, ps, ?_, ?_⟩
    · rw [Int.lt_toNat]
      omega
    · omega
    · rcases h3 with rfl | rfl <;> simp
    · rw [if_neg h4]

theorem year_of_mem_inner (cur : SplitId) (y : ℤ) (q : SplitId)
    (h : q ∈ ([1, 2] : List ℤ).filterMap (fun split =>
      if y > cur.year ∨ (y = cur.year ∧ split > cur.split) then none
      else some { year := y, split := split })) : q.year = y := by
  simp only [List.mem_filterMap] at h
  obtain ⟨s, _, hif⟩ := h
  by_cases hc : y > cur.year ∨ (y = cur.year ∧ s > cur.split)
  · rw [if_pos hc] at hif
    cases hif
  · rw [if_neg hc] at hif
    injection hif with h'
    rw [← h']

theorem pairwise_splitsToCheck (fy : ℤ) (cur : SplitId) :
    List.Pairwise chronBefore (splitsToCheck fy cur) := by
  rw [splitsToCheck, List.pairwise_flatMap]
  constructor
  · intro y hy
    simp only [List.filterMap_cons, List.filterMap_nil]
    split_ifs <;> simp [chronBefore]
  · have hyears : List.Pairwise (fun a b : ℤ => a < b)
        ((List.range (cur.year - fy + 1).toNat).map (fun k : ℕ => fy + (k : ℤ))) := by
      refine List.pairwise_map.mpr ?_
      refine (List.pairwise_lt_range _).imp ?_
      intro a b h
      omega
    refine hyears.imp ?_
    intro y1 y2 hlt q1 hq1 q2 hq2
    exact Or.inl (by rw [year_of_mem_inner cur y1 q1 hq1, year_of_mem_inner cur y2 q2 hq2]; exact hlt)

theorem nodup_splitsToCheck (fy : ℤ) (cur : SplitId) :
    (splitsToCheck fy cur).Nodup := by
  refine (pairwise_splitsToCheck fy cur).imp ?_
  intro a b h
  rcases h with h | ⟨h1, h2⟩
  · intro he
    rw [he] at h
    exact lt_irrefl _ h
  · intro he
    rw [he] at h2
    exact lt_irrefl _ h2

theorem summarise_year_split (folder : String) (fetch : String → FetchOutcome)
    (y s : ℤ) (cur : SplitId) :
    (summariseSplitForHallOfFame folder fetch y s cur).year = y ∧
    (summariseSplitForHallOfFame folder fetch y s cur).split = s := by
  unfold summariseSplitForHallOfFame
  by_cases h : y = cur.year ∧ s = cur.split
  · simp [h]
  · cases hf : fetch (buildCsvPath folder y s) with
    | failure => simp [h, hf]
    | ok body =>
      by_cases hrec : (parseCsv body).isEmpty
      · simp [h, hf, hrec]
      · by_cases hrk : (createRankedArray (tallyScores (parseCsv body))).isEmpty
        · simp [h, hf, hrec, hrk]
        · simp [h, hf, hrec, hrk]

theorem buildHallOfFame_pairs (fy : ℤ) (folder : String) (fetch : String → FetchOutcome)
    (cur : SplitId) :
    (buildHallOfFame fy folder fetch cur).map (fun x => (x.year, x.split)) =
      (splitsToCheck fy cur).map (fun p => (p.year, p.split)) := by
  rw [buildHallOfFame, List.map_map]
  refine List.map_congr_left ?_
  intro p _
  have h := summarise_year_split folder fetch p.year p.split cur
  simp [Function.comp, h.1, h.2]



theorem hof_enumeration (fy : ℤ) (folder : String) (fetch : String → FetchOutcome)
    (cur : SplitId) :
    (∀ y s : ℤ,
      (∃ u ∈ buildHallOfFame fy folder fetch cur, u.year = y ∧ u.split = s) ↔
        (fy ≤ y ∧ y ≤ cur.year ∧ (s = 1 ∨ s = 2) ∧
          ¬(y > cur.year ∨ (y = cur.year ∧ s > cur.split))))
    ∧ ((buildHallOfFame fy folder fetch cur).map (fun u => (u.year, u.split))).Nodup
    ∧ (buildHallOfFame fy folder fetch cur).Pairwise
        (fun a b => a.year < b.year ∨ (a.year = b.year ∧ a.split < b.split))
    ∧ (cur.year < fy → buildHallOfFame fy folder fetch cur = [])
    ∧ (buildHallOfFame 2024 folder fetch { year := 2025, split := 1 }).map
        (fun u => (u.year, u.split)) = [(2024, 1), (2024, 2), (2025, 1)] := by
  have hinj : Function.Injective (fun p : SplitId => (p.year, p.split)) := by
    intro a b h
    cases a
    cases b
    simpa using h
  refine ⟨?_, ?_, ?_, ?_, ?_⟩
  · intro y s
    constructor
    · rintro ⟨u, hu, h1, h2⟩
      have hmem : (y, s) ∈ (buildHallOfFame fy folder fetch cur).map
          (fun u => (u.year, u.split)) :=
        List.mem_map.mpr ⟨u, hu, by rw [h1, h2]⟩
      rw [buildHallOfFame_pairs] at hmem
      obtain ⟨p, hp, hpe⟩ := List.mem_map.mp hmem
      have h := (mem_splitsToCheck fy cur p).mp hp
      have he1 : p.year = y := (Prod.mk.injEq _ _ _ _ ▸ hpe : _ ∧ _).1
      have he2 : p.split = s := (Prod.mk.injEq _ _ _ _ ▸ hpe : _ ∧ _).2
      rw [he1, he2] at h
      exact h
    · intro hcond
      have hp : ({ year := y, split := s } : SplitId) ∈ splitsToCheck fy cur :=
        (mem_splitsToCheck fy cur { year := y, split := s }).mpr (by simpa using hcond)
      have hmem : (y, s) ∈ (splitsToCheck fy cur).map (fun p => (p.year, p.split)) :=
        List.mem_map.mpr ⟨{ year := y, split := s }, hp, rfl⟩
      rw [← buildHallOfFame_pairs fy folder fetch cur] at hmem
      obtain ⟨u, hu, hue⟩ := List.mem_map.mp hmem
      have he1 : u.year = y := (Prod.mk.injEq _ _ _ _ ▸ hue : _ ∧ _).1
      have he2 : u.split = s := (Prod.mk.injEq _ _ _ _ ▸ hue : _ ∧ _).2
      exact ⟨u, hu, he1, he2⟩
  · rw [buildHallOfFame_pairs, List.nodup_map_iff hinj]
    exact nodup_splitsToCheck fy cur
  · rw [buildHallOfFame]
    refine List.pairwise_map.mpr ?_
    refine (pairwise_splitsToCheck fy cur).imp ?_
    intro a b h
    have ha := summarise_year_split folder fetch a.year a.split cur
    have hb := summarise_year_split folder fetch b.year b.split cur
    rw [ha.1, ha.2, hb.1, hb.2]
    exact h
  · intro h
    have hempty : splitsToCheck fy cur = [] := by
      rw [splitsToCheck]
      have h0 : (cur.year - fy + 1).toNat = 0 := by omega
      rw [h0]
      rfl
    rw [buildHallOfFame, hempty]
    rfl
  · rw [buildHallOfFame_pairs]
    decide


/-! ## Claim C3: per-line CSV parsing -/

theorem idxOfComma_eq_none (cs : List Char) (h : ',' ∉ cs) : idxOfComma cs = none := by
  induction cs with
  | nil => rfl
  | cons c rest ih =>
    simp only [List.mem_cons, not_or] at h
    simp [idxOfComma, Ne.symm h.1, ih h.2]

theorem idxOfComma_append (u rest : List Char) (h : ',' ∉ u) :
    idxOfComma (u ++ ',' :: rest) = some u.length := by
  induction u with
  | nil => simp [idxOfComma]
  | cons c t ih =>
    simp only [List.mem_cons, not_or] at h
    simp [idxOfComma, Ne.symm h.1, ih h.2]

theorem ltrim_sublist (u : List Char) : (ltrim u).Sublist u :=
  List.dropWhile_sublist _

theorem rtrim_sublist (u : List Char) : (rtrim u).Sublist u := by
  have h := (List.dropWhile_sublist (l := u.reverse) isJsWhitespace).reverse
  simpa [rtrim] using h

theorem comma_ws : isJsWhitespace ',' = false := by decide

theorem ltrim_append_comma (u r : List Char) :
    ltrim (u ++ ',' :: r) = ltrim u ++ ',' :: r := by
  rw [ltrim, List.dropWhile_append]
  by_cases he : (List.dropWhile isJsWhitespace u).isEmpty
  · rw [if_pos he]
    rw [List.isEmpty_iff] at he
    simp [List.dropWhile_cons, comma_ws, ltrim, he]
  · rw [if_neg he]
    rfl

theorem rtrim_append_comma (a w : List Char) :
    rtrim (a ++ ',' :: w) = a ++ ',' :: rtrim w := by
  rw [rtrim]
  have hrev : (a ++ ',' :: w).reverse = w.reverse ++ ',' :: a.reverse := by
    simp
  rw [hrev, List.dropWhile_append]
  by_cases he : (List.dropWhile isJsWhitespace w.reverse).isEmpty
  · rw [if_pos he]
    rw [List.isEmpty_iff] at he
    simp [List.dropWhile_cons, comma_ws, rtrim, he]
  · rw [if_neg he]
    rw [List.isEmpty_iff] at he
    simp [rtrim]

theorem jsTrim_two_commas (u v w : List Char) :
    jsTrim (u ++ ',' :: v ++ ',' :: w) = ltrim u ++ ',' :: v ++ ',' :: rtrim w := by
  rw [jsTrim, ltrim_append_comma, rtrim_append_comma, ltrim_append_comma]

theorem jsTrim_one_comma (u v : List Char) :
    jsTrim (u ++ ',' :: v) = ltrim u ++ ',' :: rtrim v := by
  rw [jsTrim, ltrim_append_comma, rtrim_append_comma]

theorem jsTrim_ltrim (u : List Char) : jsTrim (ltrim u) = jsTrim u := by
  simp only [jsTrim]
  rw [ltrim_idem]



theorem jsTrim_sublist (cs : List Char) : (jsTrim cs).Sublist cs :=
  (rtrim_sublist (ltrim cs)).trans (ltrim_sublist cs)

theorem parseLine_no_comma (cs : List Char) (h : ',' ∉ cs) : parseLine cs = none := by
  have h' : ',' ∉ jsTrim cs := fun hm => h (List.Sublist.mem hm (jsTrim_sublist cs))
  have h0 : idxOfCommaFrom (jsTrim cs) 0 = none := by
    rw [idxOfCommaFrom, List.drop_zero, idxOfComma_eq_none _ h']
    rfl
  simp only [parseLine, h0]
  simp

theorem parseLine_one_comma (u v : List Char) (hu : ',' ∉ u) (hv : ',' ∉ v) :
    parseLine (u ++ ',' :: v) = none := by
  have hu' : ',' ∉ ltrim u := fun hm => hu (List.Sublist.mem hm (ltrim_sublist u))
  have hv' : ',' ∉ rtrim v := fun hm => hv (List.Sublist.mem hm (rtrim_sublist v))
  have h1 : idxOfCommaFrom (ltrim u ++ ',' :: rtrim v) 0 = some (ltrim u).length := by
    rw [idxOfCommaFrom, List.drop_zero, idxOfComma_append _ _ hu']
    simp
  have h2 : idxOfCommaFrom (ltrim u ++ ',' :: rtrim v) ((ltrim u).length + 1) = none := by
    rw [idxOfCommaFrom]
    have hsh : ltrim u ++ ',' :: rtrim v = (ltrim u ++ [',']) ++ rtrim v := by simp
    have hlen : (ltrim u).length + 1 = (ltrim u ++ [',']).length := by simp
    rw [hsh, hlen, List.drop_left, idxOfComma_eq_none _ hv']
    rfl
  simp only [parseLine, jsTrim_one_comma, h1, h2]
  simp

theorem parseLine_decomposed (u v w : List Char) (hu : ',' ∉ u) (hv : ',' ∉ v) :
    parseLine (u ++ ',' :: v ++ ',' :: w) =
      if (jsTrim u).isEmpty then none
      else
        match findNumMatch (jsTrim v) with
        | none => none
        | some m => some { player := String.mk (jsTrim u), score := numValue m } := by
  have hu' : ',' ∉ ltrim u := fun hm => hu (List.Sublist.mem hm (ltrim_sublist u))
  have hsh : ltrim u ++ ',' :: v ++ ',' :: rtrim w =
      ltrim u ++ ',' :: (v ++ ',' :: rtrim w) := by simp
  have h1 : idxOfCommaFrom (ltrim u ++ ',' :: v ++ ',' :: rtrim w) 0 =
      some (ltrim u).length := by
    rw [idxOfCommaFrom, List.drop_zero, hsh, idxOfComma_append _ _ hu']
    simp
  have hdrop : (ltrim u ++ ',' :: v ++ ',' :: rtrim w).drop ((ltrim u).length + 1) =
      v ++ ',' :: rtrim w := by
    rw [hsh]
    have hsh2 : ltrim u ++ ',' :: (v ++ ',' :: rtrim w) =
        (ltrim u ++ [',']) ++ (v ++ ',' :: rtrim w) := by simp
    have hlen : (ltrim u).length + 1 = (ltrim u ++ [',']).length := by simp
    rw [hsh2, hlen, List.drop_left]
  have h2 : idxOfCommaFrom (ltrim u ++ ',' :: v ++ ',' :: rtrim w)
      ((ltrim u).length + 1) = some (v.length + ((ltrim u).length + 1)) := by
    rw [idxOfCommaFrom, hdrop, idxOfComma_append _ _ hv]
    rfl
  have h3 : jsSlice (ltrim u ++ ',' :: v ++ ',' :: rtrim w) 0 (ltrim u).length =
      ltrim u := by
    rw [jsSlice, List.drop_zero, hsh, Nat.sub_zero, List.take_left]
  have h4 : jsSlice (ltrim u ++ ',' :: v ++ ',' :: rtrim w) ((ltrim u).length + 1)
      (v.length + ((ltrim u).length + 1)) = v := by
    rw [jsSlice, hdrop]
    have harith : v.length + ((ltrim u).length + 1) - ((ltrim u).length + 1) = v.length := by
      omega
    rw [harith, List.take_left]
  simp only [parseLine, jsTrim_two_commas, h1, h2, h3, h4, jsTrim_ltrim]
  simp

/-- Claim C3: a data line with no comma, or no second comma, is skipped
with no error; a line decomposing as player-field, comma, score-field,
comma, anything (with the first two fields comma-free) is skipped when
the trimmed player field is empty or the score field has no match of
the numeric token pattern, and otherwise yields the record with the
trimmed player text and the exact value of the first match — with
everything after the second comma ignored.  The spec's examples: X and
Y, are dropped, and Z,abc2.5xyz,note gives Z the score 2.5. -/
theorem parseLine_classification :
    (∀ cs : List Char, ',' ∉ cs → parseLine cs = none)
    ∧ (∀ u v : List Char, ',' ∉ u → ',' ∉ v → parseLine (u ++ ',' :: v) = none)
    ∧ (∀ u v w : List Char, ',' ∉ u → ',' ∉ v →
        parseLine (u ++ ',' :: v ++ ',' :: w) =
          if (jsTrim u).isEmpty then none
          else
            match findNumMatch (jsTrim v) with
            | none => none
            | some m => some { player := String.mk (jsTrim u), score := numValue m })
    ∧ parseLine "X".data = none
    ∧ parseLine "Y,".data = none
    ∧ parseLine "Z,abc2.5xyz,note".data = some { player := "Z", score := 2.5 } := by
  refine ⟨parseLine_no_comma, parseLine_one_comma, parseLine_decomposed,
    by decide, by decide, ?_⟩
  have h1 : parseLine "Z,abc2.5xyz,note".data = some ⟨"Z", numValue ['2', '.', '5']⟩ := rfl
  have h2 : numValue ['2', '.', '5'] =
      (digitsVal ['2'] : ℚ) + (digitsVal ['5'] : ℚ) / (10 : ℚ) ^ (1 : ℕ) := rfl
  have h3 : digitsVal ['2'] = 2 := by decide
  have h4 : digitsVal ['5'] = 5 := by decide
  rw [h1, h2, h3, h4]
  norm_num

/-- Witness for C3 on a concrete comma-free line, which is skipped. -/
theorem parseLine_classification_witness :
    (',' ∉ ['Q', '7']) ∧ parseLine ['Q', '7'] = none :=
  ⟨by decide, parseLine_classification.1 ['Q', '7'] (by decide)⟩

end Pantheon
